import Mathlib

/-!
# Verification of the `action-ros2-ci` workspace-assembly pipeline

Shallow embedding of `src/action-ros2-ci.ts`, a CI orchestration script that
assembles a colcon workspace, injects the package under test, prunes unneeded
dependencies, and builds and tests the target packages.

The script is a linear sequence of bash invocations built by string templating
from the action's inputs and the GitHub environment.  We embed:

* the pure helpers (`resolveVcsRepoFileUrl`, the bash-script construction of
  `execBashCommand`) directly from the source;
* the `run` function as the ordered list of bash commands it issues, together
  with a small execution model (an oracle assigns exit codes to scripts, a
  non-zero exit of a command whose `ignoreReturnCode` is false aborts the run,
  mirroring `@actions/exec`'s ToolRunner which rejects on non-zero exit);
* the filesystem effects of the target-injection and dependency-pruning shell
  pipelines (external collaborators `find | xargs rm`, `vcs import`,
  `colcon list`, `diff`) as explicitly modelled list operations.

All string processing is done through executable helpers on `List Char`
(structural recursion), so that every definition evaluates by `decide`.
-/

/-- Split a character list at every character satisfying `p`, keeping empty
pieces between consecutive separators. -/
def splitPred (p : Char → Bool) : List Char → List (List Char)
  | [] => [[]]
  | c :: rest =>
    let r := splitPred p rest
    if p c then [] :: r
    else
      match r with
      | [] => [[c]]
      | h :: t => (c :: h) :: t

/-- Models JavaScript `s.split(RegExp("\\s"))`: the string is cut at every
single whitespace character, keeping empty pieces between consecutive
separators (JS semantics).  Used for `package-name` and
`source-ros-binary-installation`. -/
def jsSplit (s : String) : List String :=
  (splitPred Char.isWhitespace s.toList).map String.mk

/-- Join a list of strings with a separator, as JavaScript `Array.join`. -/
def joinSep (sep : String) : List String → String
  | [] => ""
  | [x] => x
  | x :: y :: rest => x ++ sep ++ joinSep sep (y :: rest)

/-- `pat` is a leading substring of `s`. -/
def strStartsWith (s pat : String) : Bool :=
  pat.toList.isPrefixOf s.toList

/-- `pat` is a trailing substring of `s`. -/
def strEndsWith (s pat : String) : Bool :=
  pat.toList.isSuffixOf s.toList

/-- `pat` occurs contiguously in `l`. -/
def listIsInfix (pat : List Char) : List Char → Bool
  | [] => pat.isEmpty
  | c :: t => pat.isPrefixOf (c :: t) || listIsInfix pat t

/-- `pat` occurs as a contiguous substring of `s`. -/
def strContains (s pat : String) : Bool :=
  listIsInfix pat.toList s.toList

/-- One step of path normalization: empty and `.` segments are dropped, `..`
pops the previous segment (and is dropped at the root), a plain segment is
appended. -/
def normStep (acc : List String) (s : String) : List String :=
  if s = "" || s = "." then acc
  else if s = ".." then acc.dropLast
  else acc ++ [s]

/-- Segment-level normalization of an absolute path: empty and `.` segments
are dropped, `..` pops the previous segment (and is dropped at the root).
Models the normalization performed by Node's `path.resolve`. -/
def normSegs (segs : List String) : List String :=
  segs.foldl normStep []

/-- Models Node's `path.resolve(p)` with a single argument: a relative path is
resolved against the current working directory, and the result is normalized.
`cwd` is the process working directory (absolute on a real system). -/
def pathResolve (cwd p : String) : String :=
  let full := if strStartsWith p "/" then p else cwd ++ "/" ++ p
  let segs := (splitPred (fun c => c = '/') full.toList).map String.mk
  "/" ++ joinSep "/" (normSegs segs)

/-- The filesystem context the script reads: the process working directory and
`fs.existsSync`. -/
structure Fs where
  cwd : String
  existsSync : String → Bool

/-- Embedding of `resolveVcsRepoFileUrl` (src/action-ros2-ci.ts:21–27): a
locator naming an existing local file becomes `file://` plus its resolved
absolute path; any other locator is returned unchanged. -/
def resolveVcsRepoFileUrl (fs : Fs) (vcsRepoFileUrl : String) : String :=
  if fs.existsSync vcsRepoFileUrl then
    "file://" ++ pathResolve fs.cwd vcsRepoFileUrl
  else
    vcsRepoFileUrl

/-- The bash script built by `execBashCommand` (src/action-ros2-ci.ts:44):
JavaScript template interpolation `` `${commandPrefix}${commandLine}` ``.
When the optional `commandPrefix` argument is omitted or `undefined`,
interpolation produces the literal text `"undefined"` in front of the
command line (JS semantics of interpolating `undefined`). -/
def execBashCommandScript (commandLine : String) (pfxOpt : Option String) : String :=
  (match pfxOpt with
   | some p => p
   | none => "undefined") ++ commandLine

example : jsSplit "a b" = ["a", "b"] := by decide
example : jsSplit "a  b" = ["a", "", "b"] := by decide
example : pathResolve "/work" "ros2.repos" = "/work/ros2.repos" := by decide
example : pathResolve "/work" "/a/./b/../c" = "/a/c" := by decide
example : strContains "abcd" "bc" = true := by decide
example : strEndsWith "x || true" " || true" = true := by decide

/-! ## The action's inputs and environment -/

/-- The action inputs read through `core.getInput`
(src/action-ros2-ci.ts:61–71). -/
structure Inputs where
  colconMixinName : String
  colconMixinRepo : String
  packageName : String
  sourceRosBinaryInstallation : String
  vcsRepoFileUrl : String

/-- The GitHub environment and process context `run` reads
(src/action-ros2-ci.ts:58–59, 75, 91, 126–131). -/
structure Env where
  /-- `process.env.GITHUB_WORKSPACE` -/
  githubWorkspace : String
  /-- `process.platform` -/
  platform : String
  /-- `github.context.repo["repo"]` (the repository name). -/
  repoName : String
  /-- `process.env.GITHUB_REPOSITORY` (owner/name). -/
  githubRepository : String
  /-- `github.context.payload.pull_request`, reduced to the only field the
  script reads: `head.repo.full_name`.  `none` when the build is not for a
  pull request. -/
  pullRequestFullName : Option String
  /-- `process.env.GITHUB_HEAD_REF`; the empty string stands for an unset or
  empty variable (both are falsy under JS `||`). -/
  githubHeadRef : String
  /-- `github.context.sha` -/
  sha : String
  /-- filesystem context for `resolveVcsRepoFileUrl` -/
  fs : Fs

/-- `path.join(workspace, "ros2_ws")` (src/action-ros2-ci.ts:65). -/
def ros2WorkspaceDir (env : Env) : String :=
  env.githubWorkspace ++ "/ros2_ws"

/-- The `commandPrefix` string built at src/action-ros2-ci.ts:73–87: empty
when `source-ros-binary-installation` is unset, else one
`source /opt/ros/<distribution>/setup.sh && ` chunk per whitespace-separated
distribution, in order. -/
def mkPfx (srbi : String) : String :=
  if srbi = "" then ""
  else
    (jsSplit srbi).foldl
      (fun acc d => acc ++ ("source /opt/ros/" ++ d ++ "/setup.sh && ")) ""

/-- `packageNameList.join(" ")`: the package names re-joined for interpolation
into the colcon command lines (src/action-ros2-ci.ts:64, 147, 190, 194, 201). -/
def pkgJoined (inp : Inputs) : String :=
  joinSep " " (jsSplit inp.packageName)

/-- The `extra_options` array (src/action-ros2-ci.ts:170–173): `--mixin
<name>` is appended whenever `colcon-mixin-name` is non-empty — independently
of `colcon-mixin-repository`. -/
def extraOptions (inp : Inputs) : List String :=
  if inp.colconMixinName = "" then [] else ["--mixin", inp.colconMixinName]

/-! ## The command lines `run` builds -/

/-- src/action-ros2-ci.ts:109 -/
def curlImportLine (env : Env) (inp : Inputs) : String :=
  "curl '" ++ resolveVcsRepoFileUrl env.fs inp.vcsRepoFileUrl ++ "' | vcs import src/"

/-- src/action-ros2-ci.ts:119 -/
def findRemoveLine (env : Env) : String :=
  "find \"" ++ ros2WorkspaceDir env ++ "\" -type d -and -name \"" ++ env.repoName
    ++ "\" | xargs rm -rf"

/-- The repository full name used for the synthetic manifest URL
(src/action-ros2-ci.ts:126–129): the fork's full name when a pull-request
payload is present, else `GITHUB_REPOSITORY`. -/
def repoFullName (env : Env) : String :=
  match env.pullRequestFullName with
  | some f => f
  | none => env.githubRepository

/-- `headRef || github.context.sha` (src/action-ros2-ci.ts:130–131): the head
branch ref when non-empty, else the raw commit hash. -/
def commitRef (env : Env) : String :=
  if env.githubHeadRef = "" then env.sha else env.githubHeadRef

/-- One entry of a VCS repository manifest (the schema `vcs import`
consumes). -/
structure RepoManifestEntry where
  vcsType : String
  url : String
  version : String
deriving DecidableEq

/-- The synthetic single-entry manifest generated on the fly for the target
repository (src/action-ros2-ci.ts:132–139). -/
def syntheticManifest (env : Env) : RepoManifestEntry :=
  { vcsType := "git"
    url := "https://github.com/" ++ repoFullName env ++ ".git"
    version := commitRef env }

/-- The heredoc command of src/action-ros2-ci.ts:132–139, rendered from
`syntheticManifest`. -/
def importTargetLine (env : Env) : String :=
  "vcs import src/ << EOF\nrepositories:\n  " ++ env.repoName
    ++ ":\n    type: " ++ (syntheticManifest env).vcsType
    ++ "\n    url: \"" ++ (syntheticManifest env).url
    ++ "\"\n    version: \"" ++ (syntheticManifest env).version
    ++ "\"\nEOF"

/-- src/action-ros2-ci.ts:146–149 -/
def pruneLine (inp : Inputs) : String :=
  "diff --new-line-format=\"\" --unchanged-line-format=\"\" <(colcon list -p) <(colcon list --packages-up-to "
    ++ pkgJoined inp ++ " -p) | xargs rm -rf"

/-- src/action-ros2-ci.ts:156–157 -/
def rosdepInstallLine : String :=
  "DEBIAN_FRONTEND=noninteractive RTI_NC_LICENSE_ACCEPTED=yes rosdep install -r --from-paths src --ignore-src --rosdistro eloquent -y || true"

/-- src/action-ros2-ci.ts:164 -/
def mixinAddLine (inp : Inputs) : String :=
  "colcon mixin add default '" ++ inp.colconMixinRepo ++ "'"

/-- src/action-ros2-ci.ts:190–192 -/
def colconBuildLine (inp : Inputs) : String :=
  "colcon build --event-handlers console_cohesion+ --symlink-install --packages-up-to "
    ++ pkgJoined inp ++ " " ++ joinSep " " (extraOptions inp)

/-- src/action-ros2-ci.ts:194–196 -/
def colconTestLine (inp : Inputs) : String :=
  "colcon test --event-handlers console_cohesion+ --pytest-args --cov=. --cov-report=xml --return-code-on-test-failure --packages-select "
    ++ pkgJoined inp ++ " " ++ joinSep " " (extraOptions inp)

/-- src/action-ros2-ci.ts:201–203 -/
def lcovLine (inp : Inputs) : String :=
  "colcon lcov-result --packages-select " ++ pkgJoined inp

/-! ## The bash commands `run` issues, in order -/

/-- One `execBashCommand` invocation: the full bash script (prefix already
interpolated), the working directory passed through `ExecOptions`, and
whether `ignoreReturnCode` was set. -/
structure BashCmd where
  script : String
  cwd : Option String
  ignoreReturnCode : Bool
deriving DecidableEq

/-- The mixin-registration commands (src/action-ros2-ci.ts:162–168): executed
only when `colcon-mixin-name` and `colcon-mixin-repository` are both
non-empty. -/
def mixinRegistrationCmds (inp : Inputs) (pfx : String) : List BashCmd :=
  if inp.colconMixinName ≠ "" ∧ inp.colconMixinRepo ≠ "" then
    [⟨execBashCommandScript (mixinAddLine inp) (some pfx), none, false⟩,
     ⟨execBashCommandScript "colcon mixin update default" (some pfx), none, false⟩]
  else []

/-- The commands issued before `colcon build` (src/action-ros2-ci.ts:91–168):
`rosdep update` (skipped on Windows), manifest import, target-repository
removal, synthetic-manifest import, dependency pruning, `rosdep install`,
and mixin registration.  The non-bash effects (`io.rmRF`, `io.mkdirP`,
`core.addPath`) issue no shell command and are modelled separately where a
claim needs them. -/
def preCmds (env : Env) (inp : Inputs) : List BashCmd :=
  let pfx := mkPfx inp.sourceRosBinaryInstallation
  let wsDir := ros2WorkspaceDir env
  (if env.platform ≠ "win32" then
    [⟨execBashCommandScript "rosdep update" (some pfx), none, false⟩]
   else [])
  ++ [⟨execBashCommandScript (curlImportLine env inp) (some pfx), some wsDir, false⟩,
      ⟨execBashCommandScript (findRemoveLine env) (some pfx), none, false⟩,
      ⟨execBashCommandScript (importTargetLine env) (some pfx), some wsDir, false⟩,
      ⟨execBashCommandScript (pruneLine inp) (some pfx), some wsDir, false⟩,
      ⟨execBashCommandScript rosdepInstallLine (some pfx), some wsDir, false⟩]
  ++ mixinRegistrationCmds inp pfx

/-- The `colcon build` invocation (src/action-ros2-ci.ts:190–193). -/
def buildCmd (env : Env) (inp : Inputs) : BashCmd :=
  ⟨execBashCommandScript (colconBuildLine inp) (some (mkPfx inp.sourceRosBinaryInstallation)),
   some (ros2WorkspaceDir env), false⟩

/-- The `colcon test` invocation (src/action-ros2-ci.ts:194–197). -/
def testCmd (env : Env) (inp : Inputs) : BashCmd :=
  ⟨execBashCommandScript (colconTestLine inp) (some (mkPfx inp.sourceRosBinaryInstallation)),
   some (ros2WorkspaceDir env), false⟩

/-- The `colcon lcov-result` invocation (src/action-ros2-ci.ts:201–207): the
second argument of `execBashCommand` is the literal `undefined` (not
`commandPrefix`), and `ignoreReturnCode` is set. -/
def lcovCmd (env : Env) (inp : Inputs) : BashCmd :=
  ⟨execBashCommandScript (lcovLine inp) none, some (ros2WorkspaceDir env), true⟩

/-- Every bash command `run` issues, in program order. -/
def runCommands (env : Env) (inp : Inputs) : List BashCmd :=
  preCmds env inp ++ [buildCmd env inp, testCmd env inp, lcovCmd env inp]

/-! ## Execution model -/

/-- Modelled from bash semantics, not from repository code: a script of the
form `cmds || true` always exits 0 (this program appends ` || true` only to
the `rosdep install` line); every other script's exit code is given by the
oracle, the external tools being opaque collaborators. -/
def bashExitCode (oracle : String → Nat) (s : String) : Nat :=
  if strEndsWith s " || true" then 0 else oracle s

/-- Outcome of `run`: either full success, or the message passed to
`core.setFailed`. -/
inductive RunOutcome
  | success
  | failed (msg : String)
deriving DecidableEq

/-- Modelled from `@actions/exec`: ToolRunner rejects on a non-zero exit code
unless `ignoreReturnCode` is set; the rejection is caught by `run`'s
`try/catch`, which stops the pipeline.  Returns the commands actually
executed (in order) and the exit code of the failing command, if any. -/
def execCmds (exitOf : String → Nat) : List BashCmd → List BashCmd × Option Nat
  | [] => ([], none)
  | c :: rest =>
    if c.ignoreReturnCode || exitOf c.script == 0 then
      (c :: (execCmds exitOf rest).1, (execCmds exitOf rest).2)
    else ([c], some (exitOf c.script))

/-- The failure message reported when a bash command exits non-zero
(modelled from `@actions/exec`'s ToolRunner error text). -/
def bashFailMsg (ec : Nat) : String :=
  "The process bash failed with exit code " ++ toString ec

/-- Embedding of `run` (src/action-ros2-ci.ts:56–211): the up-front platform
check for `source-ros-binary-installation` (lines 74–80), then the command
sequence under the fail-fast execution model.  Returns the outcome and the
trace of executed bash commands. -/
def runModel (env : Env) (inp : Inputs) (oracle : String → Nat) :
    RunOutcome × List BashCmd :=
  if inp.sourceRosBinaryInstallation ≠ "" ∧ env.platform ≠ "linux" then
    (RunOutcome.failed "sourcing binary installation is only available on Linux", [])
  else
    ((match (execCmds (bashExitCode oracle) (runCommands env inp)).2 with
      | none => RunOutcome.success
      | some ec => RunOutcome.failed (bashFailMsg ec)),
     (execCmds (bashExitCode oracle) (runCommands env inp)).1)

/-! ## Filesystem effect of Target Injection (stage 3)

The workspace source tree is modelled as a list of `(directory name, checked
out ref)` pairs, one per cloned repository directory. -/

/-- Effect of `find "<ws>" -type d -and -name "<repo>" | xargs rm -rf`
(src/action-ros2-ci.ts:118–121): every directory whose name equals the
target repository name is deleted; zero matches is a silent no-op. -/
def removeRepoDirs (name : String) (ws : List (String × String)) :
    List (String × String) :=
  ws.filter (fun d => d.1 ≠ name)

/-- Effect of `vcs import src/` on the synthetic single-entry manifest
(src/action-ros2-ci.ts:132–142): one directory named after the manifest key
is materialized, checked out at the manifest entry's `version`. -/
def vcsImportSingle (name version : String) (ws : List (String × String)) :
    List (String × String) :=
  ws ++ [(name, version)]

/-- The Target Injection stage (src/action-ros2-ci.ts:114–142): delete any
pre-existing copy of the target repository, then import the synthetic
manifest pinned at `commitRef env`. -/
def targetInjection (env : Env) (ws : List (String × String)) :
    List (String × String) :=
  vcsImportSingle env.repoName (syntheticManifest env).version
    (removeRepoDirs env.repoName ws)

/-! ## Effect of Dependency Pruning (stage 4)

`colcon list -p` prints one line per package: the path of the directory
declaring that package.  `colcon list --packages-up-to <targets> -p` prints
the same listing restricted to the transitive build dependencies of the
targets (inclusive), in the same order — a sub-listing of the full one. -/

/-- A package of the workspace: its colcon package name and the path of the
directory declaring it. -/
structure SrcPackage where
  name : String
  path : String
deriving DecidableEq

/-- `b` is reachable from `a` in at most `fuel` steps of the build-dependency
relation `deps`. -/
def reachableB (deps : String → List String) : Nat → String → String → Bool
  | 0, a, b => a == b
  | n + 1, a, b => a == b || (deps a).any (fun c => reachableB deps n c b)

/-- `pkg` is a transitive build dependency of one of the `targets`,
inclusively (a target is in its own closure). -/
def inUpToClosure (deps : String → List String) (targets : List String)
    (fuel : Nat) (pkg : String) : Bool :=
  targets.any (fun t => reachableB deps fuel t pkg)

/-- Modelled from the spec (colcon is an external collaborator):
`colcon list -p` enumerates the packages present in the workspace, printing
each package's declaring directory, one line per package. -/
def colconListPaths (ws : List SrcPackage) : List String :=
  ws.map (fun p => p.path)

/-- Modelled from the spec (colcon is an external collaborator):
`colcon list --packages-up-to <targets> -p` prints the sub-listing of
`colcon list -p` restricted to the transitive build dependencies of the
targets, inclusive, preserving listing order. -/
def colconListUpToPaths (deps : String → List String) (targets : List String)
    (fuel : Nat) (ws : List SrcPackage) : List String :=
  (ws.filter (fun p => inUpToClosure deps targets fuel p.name)).map (fun p => p.path)

/-- Modelled from GNU diff semantics: with `--new-line-format=""` and
`--unchanged-line-format=""`, `diff old new` prints exactly the lines present
only in `old`.  When `new` is a sub-listing of `old` (the colcon situation),
that output is computed by this greedy line matcher. -/
def diffOldOnly : List String → List String → List String
  | [], _ => []
  | x :: xs, [] => x :: xs
  | x :: xs, y :: ys =>
    if x == y then diffOldOnly xs ys else x :: diffOldOnly xs (y :: ys)

/-- The lines fed to `xargs rm -rf` by the pruning command
(src/action-ros2-ci.ts:146–152): the diff between the full package listing
and the packages-up-to listing. -/
def prunedPaths (deps : String → List String) (targets : List String)
    (fuel : Nat) (ws : List SrcPackage) : List String :=
  diffOldOnly (colconListPaths ws) (colconListUpToPaths deps targets fuel ws)

/-- The workspace after the Dependency Pruning stage: every package whose
declaring directory was passed to `rm -rf` is gone. -/
def dependencyPruning (deps : String → List String) (targets : List String)
    (fuel : Nat) (ws : List SrcPackage) : List SrcPackage :=
  ws.filter (fun p => !((prunedPaths deps targets fuel ws).contains p.path))

/-- The full bash script of the `rosdep install` step
(src/action-ros2-ci.ts:156–160). -/
def rosdepInstallScript (inp : Inputs) : String :=
  execBashCommandScript rosdepInstallLine (some (mkPfx inp.sourceRosBinaryInstallation))

/-! ## Concrete fixtures used to instantiate the theorems -/

/-- Sample filesystem: working directory `/work`, where only `ros2.repos`
exists. -/
def fsW : Fs :=
  { cwd := "/work", existsSync := fun s => s == "ros2.repos" }

/-- Sample Linux environment for a pull-request build of `octo/demo`. -/
def envW : Env :=
  { githubWorkspace := "/w", platform := "linux", repoName := "demo",
    githubRepository := "octo/demo", pullRequestFullName := none,
    githubHeadRef := "pr-1", sha := "abc123", fs := fsW }

/-- Same environment on a non-Linux platform. -/
def envWin : Env :=
  { envW with platform := "darwin" }

/-- Sample inputs: one target package, no mixin, no binary-install sourcing. -/
def inpW : Inputs :=
  { colconMixinName := "", colconMixinRepo := "", packageName := "foo",
    sourceRosBinaryInstallation := "", vcsRepoFileUrl := "https://example.com/ros2.repos" }

/-- Partial mixin configuration: a mixin name without a mixin repository. -/
def inpC1 : Inputs :=
  { inpW with colconMixinName := "asan" }

/-- Inputs requesting binary-install sourcing of one distribution. -/
def inpC2 : Inputs :=
  { inpW with sourceRosBinaryInstallation := "eloquent" }

/-- Sample build-dependency relation: C depends on B depends on A; D is
unrelated. -/
def depsW : String → List String := fun n =>
  if n = "C" then ["B"] else if n = "B" then ["A"] else []

/-- Sample workspace with four packages. -/
def wsPkgs : List SrcPackage :=
  [⟨"A", "src/A"⟩, ⟨"B", "src/B"⟩, ⟨"C", "src/C"⟩, ⟨"D", "src/D"⟩]

/-! ## Helper lemmas -/

theorem listIsInfix_of_isPrefixOf (pat l : List Char)
    (h : pat.isPrefixOf l = true) : listIsInfix pat l = true := by
  cases l with
  | nil =>
    cases pat with
    | nil => rfl
    | cons c t => simp [List.isPrefixOf] at h
  | cons c t => simp [listIsInfix, h]

theorem listIsInfix_cons (pat : List Char) (c : Char) (l : List Char)
    (h : listIsInfix pat l = true) : listIsInfix pat (c :: l) = true := by
  simp [listIsInfix, h]

theorem strContains_of_eq_append (s a pat b : String) (h : s = a ++ pat ++ b) :
    strContains s pat = true := by
  subst h
  unfold strContains
  have hdata : (a ++ pat ++ b).toList = a.toList ++ (pat.toList ++ b.toList) := by
    show (a ++ pat ++ b).data = a.data ++ (pat.data ++ b.data)
    rw [String.data_append, String.data_append, List.append_assoc]
  rw [hdata]
  clear hdata
  induction a.toList with
  | nil =>
    apply listIsInfix_of_isPrefixOf
    exact List.isPrefixOf_iff_prefix.mpr (List.prefix_append _ _)
  | cons c t ih => exact listIsInfix_cons _ c _ ih

theorem strEndsWith_append (a b pat : String) (h : strEndsWith b pat = true) :
    strEndsWith (a ++ b) pat = true := by
  unfold strEndsWith at h ⊢
  have hsuf : pat.toList <:+ b.toList := List.isSuffixOf_iff_suffix.mp h
  apply List.isSuffixOf_iff_suffix.mpr
  have hdata : (a ++ b).toList = a.toList ++ b.toList := String.data_append a b
  rw [hdata]
  obtain ⟨t, ht⟩ := hsuf
  exact ⟨a.toList ++ t, by rw [List.append_assoc, ht]⟩

theorem execCmds_all_ok (exitOf : String → Nat) (cmds : List BashCmd)
    (h : ∀ c ∈ cmds, c.ignoreReturnCode = false → exitOf c.script = 0) :
    execCmds exitOf cmds = (cmds, none) := by
  induction cmds with
  | nil => rfl
  | cons c rest ih =>
    have hc : (c.ignoreReturnCode || exitOf c.script == 0) = true := by
      cases hic : c.ignoreReturnCode
      · have := h c (List.mem_cons_self _ _) hic
        simp [this]
      · simp
    have hrest := ih (fun d hd => h d (List.mem_cons_of_mem _ hd))
    simp [execCmds, hc, hrest]

theorem execCmds_append_ok (exitOf : String → Nat) (xs ys : List BashCmd)
    (h : ∀ c ∈ xs, c.ignoreReturnCode = false → exitOf c.script = 0) :
    execCmds exitOf (xs ++ ys) =
      (xs ++ (execCmds exitOf ys).1, (execCmds exitOf ys).2) := by
  induction xs with
  | nil => simp
  | cons c rest ih =>
    have hc : (c.ignoreReturnCode || exitOf c.script == 0) = true := by
      cases hic : c.ignoreReturnCode
      · have := h c (List.mem_cons_self _ _) hic
        simp [this]
      · simp
    have hrest := ih (fun d hd => h d (List.mem_cons_of_mem _ hd))
    simp [execCmds, hc, hrest]

theorem execCmds_cons_fail (exitOf : String → Nat) (c : BashCmd)
    (rest : List BashCmd) (hic : c.ignoreReturnCode = false)
    (hec : exitOf c.script ≠ 0) :
    execCmds exitOf (c :: rest) = ([c], some (exitOf c.script)) := by
  have hc : (c.ignoreReturnCode || exitOf c.script == 0) = false := by
    simp [hic, hec]
  simp [execCmds, hc]

theorem normStep_mem (acc : List String) (s : String)
    (h : ∀ x ∈ acc, x ≠ "" ∧ x ≠ "." ∧ x ≠ "..") :
    ∀ x ∈ normStep acc s, x ≠ "" ∧ x ≠ "." ∧ x ≠ ".." := by
  intro x hx
  unfold normStep at hx
  by_cases h1 : s = "" || s = "."
  · rw [if_pos h1] at hx
    exact h x hx
  · rw [if_neg h1] at hx
    by_cases h2 : s = ".."
    · rw [if_pos h2] at hx
      exact h x ((List.dropLast_sublist acc).mem hx)
    · rw [if_neg h2] at hx
      rcases List.mem_append.mp hx with hmem | hmem
      · exact h x hmem
      · have hxs : x = s := List.mem_singleton.mp hmem
        subst hxs
        simp only [Bool.or_eq_true, decide_eq_true_eq] at h1
        exact ⟨fun he => h1 (Or.inl he), fun he => h1 (Or.inr he), h2⟩

theorem normSegs_mem (segs : List String) :
    ∀ x ∈ normSegs segs, x ≠ "" ∧ x ≠ "." ∧ x ≠ ".." := by
  unfold normSegs
  suffices h : ∀ (l : List String) (acc : List String),
      (∀ x ∈ acc, x ≠ "" ∧ x ≠ "." ∧ x ≠ "..") →
      ∀ x ∈ l.foldl normStep acc, x ≠ "" ∧ x ≠ "." ∧ x ≠ ".." by
    exact h segs [] (by intro x hx; cases hx)
  intro l
  induction l with
  | nil => intro acc hacc; exact hacc
  | cons s t ih =>
    intro acc hacc
    exact ih (normStep acc s) (normStep_mem acc s hacc)

theorem diffOldOnly_nil (l : List String) : diffOldOnly l [] = l := by
  cases l <;> rfl

theorem diffOldOnly_filter_map (q : SrcPackage → Bool) (ws : List SrcPackage)
    (hnd : (ws.map (fun p => p.path)).Nodup) :
    diffOldOnly (ws.map (fun p => p.path)) ((ws.filter q).map (fun p => p.path))
      = (ws.filter (fun p => !q p)).map (fun p => p.path) := by
  induction ws with
  | nil => rfl
  | cons x xs ih =>
    have hnd' : (xs.map (fun p => p.path)).Nodup := (List.nodup_cons.mp hnd).2
    have hnotmem : x.path ∉ xs.map (fun p => p.path) := (List.nodup_cons.mp hnd).1
    have ihx := ih hnd'
    by_cases hq : q x
    · rw [List.map_cons, List.filter_cons_of_pos hq, List.map_cons,
        List.filter_cons_of_neg (by simp [hq])]
      have hstep : diffOldOnly (x.path :: xs.map (fun p => p.path))
          (x.path :: (xs.filter q).map (fun p => p.path))
          = diffOldOnly (xs.map (fun p => p.path)) ((xs.filter q).map (fun p => p.path)) := by
        simp [diffOldOnly]
      rw [hstep, ihx]
    · have hqx : q x = false := by simp [hq]
      rw [List.map_cons, List.filter_cons_of_neg (by simp [hqx]),
        List.filter_cons_of_pos (by simp [hqx]), List.map_cons]
      cases hfil : (xs.filter q).map (fun p => p.path) with
      | nil =>
        rw [hfil] at ihx
        rw [diffOldOnly_nil] at ihx
        have hstep : diffOldOnly (x.path :: xs.map (fun p => p.path)) [] =
            x.path :: xs.map (fun p => p.path) := diffOldOnly_nil _
        rw [hstep, ihx]
      | cons y ys =>
        have hy : y ∈ xs.map (fun p => p.path) := by
          have hmem : y ∈ (xs.filter q).map (fun p => p.path) := by
            rw [hfil]; exact List.mem_cons_self _ _
          rcases List.mem_map.mp hmem with ⟨r, hr, hry⟩
          exact List.mem_map.mpr ⟨r, List.mem_of_mem_filter hr, hry⟩
        have hne : (x.path == y) = false := by
          apply beq_eq_false_iff_ne.mpr
          intro he
          exact hnotmem (he ▸ hy)
        have hstep : diffOldOnly (x.path :: xs.map (fun p => p.path)) (y :: ys)
            = x.path :: diffOldOnly (xs.map (fun p => p.path)) (y :: ys) := by
          simp [diffOldOnly, hne]
        rw [hstep, ← hfil, ihx]

theorem dependencyPruning_eq_filter (deps : String → List String)
    (targets : List String) (fuel : Nat) (ws : List SrcPackage)
    (hnd : (ws.map (fun p => p.path)).Nodup) :
    dependencyPruning deps targets fuel ws
      = ws.filter (fun p => inUpToClosure deps targets fuel p.name) := by
  have hpruned : prunedPaths deps targets fuel ws
      = (ws.filter (fun p => !inUpToClosure deps targets fuel p.name)).map (fun p => p.path) :=
    diffOldOnly_filter_map _ ws hnd
  unfold dependencyPruning
  apply List.filter_congr
  intro p hp
  rw [hpruned]
  have hinj := List.inj_on_of_nodup_map hnd
  by_cases hq : inUpToClosure deps targets fuel p.name
  · have hnot : p.path ∉ (ws.filter (fun r => !inUpToClosure deps targets fuel r.name)).map
        (fun r => r.path) := by
      intro hmem
      rcases List.mem_map.mp hmem with ⟨r, hr, hrp⟩
      have hrws : r ∈ ws := List.mem_of_mem_filter hr
      have hrq : (!inUpToClosure deps targets fuel r.name) = true := (List.mem_filter.mp hr).2
      have : r = p := hinj hrws hp hrp
      rw [this] at hrq
      simp [hq] at hrq
    simp [List.elem_iff, hnot, hq]
  · have hmem : p.path ∈ (ws.filter (fun r => !inUpToClosure deps targets fuel r.name)).map
        (fun r => r.path) := by
      apply List.mem_map.mpr
      refine ⟨p, ?_, rfl⟩
      apply List.mem_filter.mpr
      exact ⟨hp, by simp [hq]⟩
    simp [List.elem_iff, hmem, hq]

theorem removeRepoDirs_filter_eq_nil (n : String) (ws : List (String × String)) :
    (removeRepoDirs n ws).filter (fun d => d.1 == n) = [] := by
  induction ws with
  | nil => rfl
  | cons d t ih =>
    unfold removeRepoDirs at ih ⊢
    by_cases h : d.1 = n
    · simp only [List.filter_cons, h]
      simp [ih]
    · simp only [List.filter_cons]
      have h1 : (decide ¬d.1 = n) = true := by simp [h]
      have h2 : (d.1 == n) = false := by simp [h]
      simp [h1, h2, ih]

theorem foldl_append_eq_joinSep (f : String → String) (l : List String) :
    ∀ acc : String, l.foldl (fun a d => a ++ f d) acc = acc ++ joinSep "" (l.map f) := by
  induction l with
  | nil => intro acc; simp [joinSep, String.append_empty]
  | cons d t ih =>
    intro acc
    simp only [List.foldl_cons, List.map_cons]
    rw [ih (acc ++ f d)]
    cases t with
    | nil => simp [joinSep, String.append_empty]
    | cons e r =>
      simp [joinSep, String.append_assoc, String.append_empty]

theorem strStartsWith_slash_append (r : String) :
    strStartsWith ("/" ++ r) "/" = true := by
  unfold strStartsWith
  have hdata : ("/" ++ r).toList = '/' :: r.toList := by
    show ("/" ++ r).data = '/' :: r.data
    rw [String.data_append]
    rfl
  rw [hdata]
  simp [List.isPrefixOf]

/-! ## Claim theorems -/

/-- C6: for every input naming an existing local file, `resolveVcsRepoFileUrl`
returns `"file://"` followed by the resolved path, which is absolute (leading
`/`) and normalized (no empty, `.` or `..` segments) — so the URL's meaning
does not depend on the working directory, and for an already-absolute input
the resolution is the same under every working directory; for every input not
naming an existing local file, the locator is returned unchanged. -/
theorem resolveVcsRepoFileUrl_spec (fs : Fs) (u : String) :
    (fs.existsSync u = true →
      resolveVcsRepoFileUrl fs u = "file://" ++ pathResolve fs.cwd u
      ∧ strStartsWith (pathResolve fs.cwd u) "/" = true
      ∧ (∃ segs : List String,
          pathResolve fs.cwd u = "/" ++ joinSep "/" segs
          ∧ ∀ s ∈ segs, s ≠ "" ∧ s ≠ "." ∧ s ≠ "..")
      ∧ (strStartsWith u "/" = true →
          ∀ cwd₂ : String, pathResolve cwd₂ u = pathResolve fs.cwd u))
    ∧ (fs.existsSync u = false → resolveVcsRepoFileUrl fs u = u) := by
  constructor
  · intro hex
    refine ⟨?_, ?_, ?_, ?_⟩
    · unfold resolveVcsRepoFileUrl
      rw [if_pos hex]
    · unfold pathResolve
      exact strStartsWith_slash_append _
    · exact ⟨normSegs ((splitPred (fun c => c = '/')
        (if strStartsWith u "/" then u else fs.cwd ++ "/" ++ u).toList).map String.mk),
        rfl, normSegs_mem _⟩
    · intro habs cwd₂
      unfold pathResolve
      rw [habs]
      simp
  · intro hex
    unfold resolveVcsRepoFileUrl
    rw [if_neg (by simp [hex])]

/-- C6 witness: on the sample filesystem, a relative path to the existing
`ros2.repos` resolves to a `file://` URL with the absolute normalized path,
and a remote URL is returned unchanged. -/
theorem resolveVcsRepoFileUrl_spec_witness :
    resolveVcsRepoFileUrl fsW "ros2.repos" = "file:///work/ros2.repos"
    ∧ resolveVcsRepoFileUrl fsW "https://example.com/ros2.repos"
        = "https://example.com/ros2.repos" := by
  have h₁ := (resolveVcsRepoFileUrl_spec fsW "ros2.repos").1 (by decide)
  have h₂ := (resolveVcsRepoFileUrl_spec fsW "https://example.com/ros2.repos").2 (by decide)
  refine ⟨?_, h₂⟩
  rw [h₁.1]
  decide

/-- C10: when `execBashCommand`'s `commandPrefix` argument is omitted or
`undefined`, the executed bash script is the literal string `"undefined"`
concatenated in front of the command line; in particular the
coverage-extraction step runs `undefinedcolcon lcov-result ...`. -/
theorem execBashCommand_undefined_interpolation :
    (∀ line : String, execBashCommandScript line none = "undefined" ++ line)
    ∧ ∀ (env : Env) (inp : Inputs),
        (lcovCmd env inp).script
          = "undefined" ++ ("colcon lcov-result --packages-select " ++ pkgJoined inp)
        ∧ lcovCmd env inp ∈ runCommands env inp := by
  refine ⟨fun line => rfl, fun env inp => ⟨rfl, ?_⟩⟩
  simp [runCommands, List.mem_append]

/-- C8: with `source-ros-binary-installation` set on a non-Linux platform,
the run fails at once with the platform-unsupported message and executes no
bash command at all (no rosdep, import, build or test). -/
theorem platform_gate_fails_immediately (env : Env) (inp : Inputs)
    (oracle : String → Nat)
    (hsrbi : inp.sourceRosBinaryInstallation ≠ "") (hplat : env.platform ≠ "linux") :
    runModel env inp oracle
      = (RunOutcome.failed "sourcing binary installation is only available on Linux",
         []) := by
  unfold runModel
  rw [if_pos ⟨hsrbi, hplat⟩]

/-- C8 witness: sourcing `eloquent` on a Darwin platform fails immediately
with an empty command trace. -/
theorem platform_gate_fails_immediately_witness :
    runModel envWin inpC2 (fun _ => 0)
      = (RunOutcome.failed "sourcing binary installation is only available on Linux",
         []) :=
  platform_gate_fails_immediately envWin inpC2 (fun _ => 0) (by decide) (by decide)

/-- C3: after Target Injection the workspace holds exactly one directory for
the target repository name, at the injected ref; the synthetic manifest entry
has type `git`, a URL built from the repository full name (the fork's full
name when a pull-request payload is present), and version equal to the head
branch ref when non-empty, else the raw commit hash. -/
theorem target_injection_spec (env : Env) (ws : List (String × String)) :
    (targetInjection env ws).filter (fun d => d.1 == env.repoName)
        = [(env.repoName, commitRef env)]
    ∧ (syntheticManifest env).vcsType = "git"
    ∧ (syntheticManifest env).url = "https://github.com/" ++ repoFullName env ++ ".git"
    ∧ (∀ f, env.pullRequestFullName = some f → repoFullName env = f)
    ∧ (env.pullRequestFullName = none → repoFullName env = env.githubRepository)
    ∧ (env.githubHeadRef ≠ "" → (syntheticManifest env).version = env.githubHeadRef)
    ∧ (env.githubHeadRef = "" → (syntheticManifest env).version = env.sha) := by
  refine ⟨?_, rfl, rfl, ?_, ?_, ?_, ?_⟩
  · unfold targetInjection vcsImportSingle
    rw [List.filter_append, removeRepoDirs_filter_eq_nil]
    simp [syntheticManifest]
  · intro f hf
    unfold repoFullName
    rw [hf]
  · intro hf
    unfold repoFullName
    rw [hf]
  · intro h
    simp [syntheticManifest, commitRef, h]
  · intro h
    simp [syntheticManifest, commitRef, h]

/-- C3 witness: injecting the target into a workspace already containing a
copy of `demo` (at `main`) plus an unrelated directory leaves exactly one
`demo` directory, checked out at the PR head ref `pr-1`; the synthetic
manifest URL is built from `octo/demo`. -/
theorem target_injection_spec_witness :
    (targetInjection envW [("demo", "main"), ("other", "x")]).filter
        (fun d => d.1 == "demo") = [("demo", "pr-1")]
    ∧ (syntheticManifest envW).vcsType = "git"
    ∧ (syntheticManifest envW).url = "https://github.com/octo/demo.git"
    ∧ (syntheticManifest envW).version = "pr-1" := by
  have h := target_injection_spec envW [("demo", "main"), ("other", "x")]
  refine ⟨h.1, h.2.1, ?_, h.2.2.2.2.2.1 (by decide)⟩
  rw [h.2.2.1]
  decide

/-- C9: the `rosdep install` script ends in ` || true`, so its bash exit code
is 0 whatever rosdep itself returns: changing the oracle's answer on that one
script never changes the pipeline's outcome or its command trace — the run
always continues to the subsequent stages unchanged. -/
theorem rosdep_install_nonfatal (env : Env) (inp : Inputs) (o₁ o₂ : String → Nat)
    (h : ∀ s, s ≠ rosdepInstallScript inp → o₁ s = o₂ s) :
    bashExitCode o₁ (rosdepInstallScript inp) = 0
    ∧ runModel env inp o₁ = runModel env inp o₂ := by
  have hsuf : strEndsWith (rosdepInstallScript inp) " || true" = true := by
    unfold rosdepInstallScript execBashCommandScript
    apply strEndsWith_append
    decide
  have hzero : ∀ o : String → Nat, bashExitCode o (rosdepInstallScript inp) = 0 := by
    intro o
    unfold bashExitCode
    rw [if_pos hsuf]
  refine ⟨hzero o₁, ?_⟩
  have hfun : bashExitCode o₁ = bashExitCode o₂ := by
    funext s
    by_cases hs : s = rosdepInstallScript inp
    · rw [hs, hzero o₁, hzero o₂]
    · unfold bashExitCode
      rw [h s hs]
  unfold runModel
  rw [hfun]

/-- C9 witness: an oracle reporting exit status 7 for the `rosdep install`
script produces exactly the same run as one reporting 0 everywhere. -/
theorem rosdep_install_nonfatal_witness :
    bashExitCode (fun s => if s = rosdepInstallScript inpW then 7 else 0)
        (rosdepInstallScript inpW) = 0
    ∧ runModel envW inpW (fun s => if s = rosdepInstallScript inpW then 7 else 0)
        = runModel envW inpW (fun _ => 0) :=
  rosdep_install_nonfatal envW inpW _ _ (fun s hs => by simp [hs])

/-- C7: when every fatal (non-`ignoreReturnCode`) command succeeds, the run
succeeds with the full trace — the coverage-extraction command is executed
with `ignoreReturnCode` set, so its exit status (left unconstrained here) can
never change the overall result. -/
theorem coverage_failure_never_fatal (env : Env) (inp : Inputs) (oracle : String → Nat)
    (hplat : inp.sourceRosBinaryInstallation = "" ∨ env.platform = "linux")
    (hok : ∀ c ∈ runCommands env inp, c.ignoreReturnCode = false →
      bashExitCode oracle c.script = 0) :
    (lcovCmd env inp).ignoreReturnCode = true
    ∧ lcovCmd env inp ∈ runCommands env inp
    ∧ runModel env inp oracle = (RunOutcome.success, runCommands env inp) := by
  refine ⟨rfl, by simp [runCommands, List.mem_append], ?_⟩
  unfold runModel
  have hcond : ¬(inp.sourceRosBinaryInstallation ≠ "" ∧ env.platform ≠ "linux") := by
    rcases hplat with h | h
    · exact fun hc => hc.1 h
    · exact fun hc => hc.2 h
  rw [if_neg hcond]
  rw [execCmds_all_ok (bashExitCode oracle) (runCommands env inp) hok]

/-- C7 witness: on the sample run, an oracle that fails exactly the
coverage-extraction script (exit 5) still yields a fully successful run. -/
theorem coverage_failure_never_fatal_witness :
    runModel envW inpW (fun s => if s = (lcovCmd envW inpW).script then 5 else 0)
      = (RunOutcome.success, runCommands envW inpW) :=
  (coverage_failure_never_fatal envW inpW _ (Or.inl rfl) (by decide)).2.2

/-- C5: the build command is restricted to the targets' dependency closure
(`--packages-up-to <packages>`); the test command is restricted to the
targets alone (`--packages-select <packages>`) with coverage instrumentation
(`--pytest-args --cov=. --cov-report=xml`); test runs only after the build
command succeeds; a failure of build (resp. test) stops the run right there
with a failed outcome. -/
theorem build_then_test_spec (env : Env) (inp : Inputs) (oracle : String → Nat)
    (hplat : inp.sourceRosBinaryInstallation = "" ∨ env.platform = "linux")
    (hpre : ∀ c ∈ preCmds env inp, c.ignoreReturnCode = false →
      bashExitCode oracle c.script = 0) :
    strContains (buildCmd env inp).script ("--packages-up-to " ++ pkgJoined inp) = true
    ∧ strContains (testCmd env inp).script ("--packages-select " ++ pkgJoined inp) = true
    ∧ strContains (testCmd env inp).script "--pytest-args --cov=. --cov-report=xml" = true
    ∧ (bashExitCode oracle (buildCmd env inp).script = 0 →
        bashExitCode oracle (testCmd env inp).script = 0 →
        runModel env inp oracle = (RunOutcome.success, runCommands env inp))
    ∧ (bashExitCode oracle (buildCmd env inp).script ≠ 0 →
        runModel env inp oracle
          = (RunOutcome.failed (bashFailMsg (bashExitCode oracle (buildCmd env inp).script)),
             preCmds env inp ++ [buildCmd env inp]))
    ∧ (bashExitCode oracle (buildCmd env inp).script = 0 →
        bashExitCode oracle (testCmd env inp).script ≠ 0 →
        runModel env inp oracle
          = (RunOutcome.failed (bashFailMsg (bashExitCode oracle (testCmd env inp).script)),
             preCmds env inp ++ [buildCmd env inp, testCmd env inp])) := by
  have hcond : ¬(inp.sourceRosBinaryInstallation ≠ "" ∧ env.platform ≠ "linux") := by
    rcases hplat with h | h
    · exact fun hc => hc.1 h
    · exact fun hc => hc.2 h
  have happ : ∀ rest : List BashCmd,
      execCmds (bashExitCode oracle) (preCmds env inp ++ rest)
        = (preCmds env inp ++ (execCmds (bashExitCode oracle) rest).1,
           (execCmds (bashExitCode oracle) rest).2) :=
    fun rest => execCmds_append_ok _ _ rest hpre
  refine ⟨?_, ?_, ?_, ?_, ?_, ?_⟩
  · refine strContains_of_eq_append _
      (mkPfx inp.sourceRosBinaryInstallation
        ++ "colcon build --event-handlers console_cohesion+ --symlink-install ")
      _ (" " ++ joinSep " " (extraOptions inp)) ?_
    show execBashCommandScript (colconBuildLine inp)
        (some (mkPfx inp.sourceRosBinaryInstallation)) = _
    unfold execBashCommandScript colconBuildLine
    have hsplit :
        ("colcon build --event-handlers console_cohesion+ --symlink-install --packages-up-to " : String)
          = "colcon build --event-handlers console_cohesion+ --symlink-install "
            ++ "--packages-up-to " := by decide
    simp only [String.append_assoc]
    rw [hsplit]
    simp only [String.append_assoc]
  · refine strContains_of_eq_append _
      (mkPfx inp.sourceRosBinaryInstallation
        ++ "colcon test --event-handlers console_cohesion+ --pytest-args --cov=. --cov-report=xml --return-code-on-test-failure ")
      _ (" " ++ joinSep " " (extraOptions inp)) ?_
    show execBashCommandScript (colconTestLine inp)
        (some (mkPfx inp.sourceRosBinaryInstallation)) = _
    unfold execBashCommandScript colconTestLine
    have hsplit :
        ("colcon test --event-handlers console_cohesion+ --pytest-args --cov=. --cov-report=xml --return-code-on-test-failure --packages-select " : String)
          = "colcon test --event-handlers console_cohesion+ --pytest-args --cov=. --cov-report=xml --return-code-on-test-failure "
            ++ "--packages-select " := by decide
    simp only [String.append_assoc]
    rw [hsplit]
    simp only [String.append_assoc]
  · refine strContains_of_eq_append _
      (mkPfx inp.sourceRosBinaryInstallation
        ++ "colcon test --event-handlers console_cohesion+ ")
      _ (" --return-code-on-test-failure --packages-select " ++ pkgJoined inp
          ++ " " ++ joinSep " " (extraOptions inp)) ?_
    show execBashCommandScript (colconTestLine inp)
        (some (mkPfx inp.sourceRosBinaryInstallation)) = _
    unfold execBashCommandScript colconTestLine
    have hsplit :
        ("colcon test --event-handlers console_cohesion+ --pytest-args --cov=. --cov-report=xml --return-code-on-test-failure --packages-select " : String)
          = "colcon test --event-handlers console_cohesion+ "
            ++ "--pytest-args --cov=. --cov-report=xml"
            ++ " --return-code-on-test-failure --packages-select " := by decide
    simp only [String.append_assoc]
    rw [hsplit]
    simp only [String.append_assoc]
  · intro hb ht
    unfold runModel
    rw [if_neg hcond]
    unfold runCommands
    rw [happ]
    have h3 : execCmds (bashExitCode oracle)
        [buildCmd env inp, testCmd env inp, lcovCmd env inp]
        = ([buildCmd env inp, testCmd env inp, lcovCmd env inp], none) := by
      apply execCmds_all_ok
      intro c hc hic
      rcases List.mem_cons.mp hc with rfl | hc2
      · exact hb
      rcases List.mem_cons.mp hc2 with rfl | hc3
      · exact ht
      rcases List.mem_cons.mp hc3 with rfl | hc4
      · simp [lcovCmd] at hic
      · cases hc4
    rw [h3]
  · intro hb
    unfold runModel
    rw [if_neg hcond]
    unfold runCommands
    rw [happ]
    rw [execCmds_cons_fail _ _ _ rfl hb]
  · intro hb ht
    unfold runModel
    rw [if_neg hcond]
    unfold runCommands
    rw [happ]
    have h3 : execCmds (bashExitCode oracle)
        [buildCmd env inp, testCmd env inp, lcovCmd env inp]
        = ([buildCmd env inp, testCmd env inp],
           some (bashExitCode oracle (testCmd env inp).script)) := by
      have hstep : ((buildCmd env inp).ignoreReturnCode
          || bashExitCode oracle (buildCmd env inp).script == 0) = true := by
        simp [hb]
      show (if (buildCmd env inp).ignoreReturnCode
            || bashExitCode oracle (buildCmd env inp).script == 0 then
          (buildCmd env inp
            :: (execCmds (bashExitCode oracle) [testCmd env inp, lcovCmd env inp]).1,
           (execCmds (bashExitCode oracle) [testCmd env inp, lcovCmd env inp]).2)
        else ([buildCmd env inp], some (bashExitCode oracle (buildCmd env inp).script))) = _
      rw [if_pos hstep, execCmds_cons_fail _ _ _ rfl ht]
    rw [h3]

/-- C5 witness: on the sample run with an all-zero oracle, the build command
carries `--packages-up-to foo` and the run succeeds with the full trace. -/
theorem build_then_test_spec_witness :
    strContains (buildCmd envW inpW).script ("--packages-up-to " ++ pkgJoined inpW) = true
    ∧ runModel envW inpW (fun _ => 0) = (RunOutcome.success, runCommands envW inpW) := by
  have h := build_then_test_spec envW inpW (fun _ => 0) (Or.inl rfl) (by decide)
  exact ⟨h.1, h.2.2.2.1 (by decide) (by decide)⟩

/-- C1 counterexample: with `colcon-mixin-name` set to `asan` and
`colcon-mixin-repository` empty — exactly one of the pair non-empty — the
registration commands are indeed skipped, but the build and test invocations
still carry `--mixin asan`, refuting the claim that partial mixin
configuration is treated exactly as if no mixin were requested. -/
theorem mixin_partial_config_counterexample :
    inpC1.colconMixinName = "asan"
    ∧ inpC1.colconMixinRepo = ""
    ∧ mixinRegistrationCmds inpC1 (mkPfx inpC1.sourceRosBinaryInstallation) = []
    ∧ extraOptions inpC1 = ["--mixin", "asan"]
    ∧ strContains (buildCmd envW inpC1).script "--mixin asan" = true
    ∧ strContains (testCmd envW inpC1).script "--mixin asan" = true := by
  decide

/-- C1 (amended): the mixin-registration commands (`colcon mixin add` /
`colcon mixin update`) are skipped whenever either mixin input is empty; but
the `--mixin` option on the build and test invocations is governed by
`colcon-mixin-name` alone — absent when the name is empty, present as
`--mixin <name>` even when only the repository is empty. -/
theorem mixin_partial_config_amended (inp : Inputs) (pfx : String)
    (h : inp.colconMixinName = "" ∨ inp.colconMixinRepo = "") :
    mixinRegistrationCmds inp pfx = []
    ∧ (inp.colconMixinName = "" →
        extraOptions inp = []
        ∧ colconBuildLine inp
            = "colcon build --event-handlers console_cohesion+ --symlink-install --packages-up-to "
              ++ pkgJoined inp ++ " "
        ∧ colconTestLine inp
            = "colcon test --event-handlers console_cohesion+ --pytest-args --cov=. --cov-report=xml --return-code-on-test-failure --packages-select "
              ++ pkgJoined inp ++ " ")
    ∧ (inp.colconMixinName ≠ "" →
        extraOptions inp = ["--mixin", inp.colconMixinName]) := by
  refine ⟨?_, ?_, ?_⟩
  · unfold mixinRegistrationCmds
    rw [if_neg]
    rcases h with h | h
    · exact fun hc => hc.1 h
    · exact fun hc => hc.2 h
  · intro hn
    have he : extraOptions inp = [] := by
      unfold extraOptions
      rw [if_pos hn]
    refine ⟨he, ?_, ?_⟩
    · unfold colconBuildLine
      rw [he]
      simp [joinSep, String.append_empty]
    · unfold colconTestLine
      rw [he]
      simp [joinSep, String.append_empty]
  · intro hn
    unfold extraOptions
    rw [if_neg hn]

/-- C1 witness for the amended statement: with only the mixin name set, no
registration command is issued while `extra_options` still carries the
mixin flag. -/
theorem mixin_partial_config_amended_witness :
    mixinRegistrationCmds inpC1 "" = []
    ∧ extraOptions inpC1 = ["--mixin", "asan"] :=
  ⟨(mixin_partial_config_amended inpC1 "" (Or.inr rfl)).1,
   (mixin_partial_config_amended inpC1 "" (Or.inr rfl)).2.2 (by decide)⟩

/-- C2 counterexample: with `source-ros-binary-installation = "eloquent"` on
Linux, the coverage-extraction command issued by the pipeline is not prefixed
with the distribution setup script: its script is the literal
`undefinedcolcon lcov-result ...`, refuting "every shell command executed by
the pipeline — including the final coverage-extraction invocation — is
prefixed". -/
theorem srbi_prefix_counterexample :
    inpC2.sourceRosBinaryInstallation = "eloquent"
    ∧ envW.platform = "linux"
    ∧ lcovCmd envW inpC2 ∈ runCommands envW inpC2
    ∧ (lcovCmd envW inpC2).script = "undefinedcolcon lcov-result --packages-select foo"
    ∧ strStartsWith (lcovCmd envW inpC2).script
        "source /opt/ros/eloquent/setup.sh && " = false := by
  decide

/-- C2 (amended): when `source-ros-binary-installation` is set (on Linux),
every bash command except the coverage-extraction one is prefixed with the
concatenation of one `source /opt/ros/<distribution>/setup.sh && ` chunk per
listed distribution, in order; the coverage-extraction command instead runs
with the literal interpolation of `undefined` in front. -/
theorem srbi_prefix_amended (env : Env) (inp : Inputs)
    (hsrbi : inp.sourceRosBinaryInstallation ≠ "") (_hplat : env.platform = "linux") :
    (∀ c ∈ runCommands env inp, c.ignoreReturnCode = false →
      ∃ line, c.script = mkPfx inp.sourceRosBinaryInstallation ++ line)
    ∧ (lcovCmd env inp).script = "undefined" ++ lcovLine inp
    ∧ mkPfx inp.sourceRosBinaryInstallation
        = joinSep "" ((jsSplit inp.sourceRosBinaryInstallation).map
            (fun d => "source /opt/ros/" ++ d ++ "/setup.sh && ")) := by
  refine ⟨?_, rfl, ?_⟩
  · intro c hc hic
    by_cases hwin : env.platform ≠ "win32"
    · by_cases hmix : inp.colconMixinName ≠ "" ∧ inp.colconMixinRepo ≠ ""
      · simp only [runCommands, preCmds, mixinRegistrationCmds, if_pos hwin, if_pos hmix,
          List.mem_append, List.mem_cons, List.mem_singleton, List.not_mem_nil, or_false,
          false_or, or_assoc] at hc
        rcases hc with rfl | rfl | rfl | rfl | rfl | rfl | rfl | rfl | rfl | rfl | rfl
          <;> first
          | exact ⟨_, rfl⟩
          | simp [lcovCmd] at hic
      · simp only [runCommands, preCmds, mixinRegistrationCmds, if_pos hwin, if_neg hmix,
          List.mem_append, List.mem_cons, List.mem_singleton, List.not_mem_nil, or_false,
          false_or, or_assoc] at hc
        rcases hc with rfl | rfl | rfl | rfl | rfl | rfl | rfl | rfl | rfl
          <;> first
          | exact ⟨_, rfl⟩
          | simp [lcovCmd] at hic
    · by_cases hmix : inp.colconMixinName ≠ "" ∧ inp.colconMixinRepo ≠ ""
      · simp only [runCommands, preCmds, mixinRegistrationCmds, if_neg hwin, if_pos hmix,
          List.mem_append, List.mem_cons, List.mem_singleton, List.not_mem_nil, or_false,
          false_or, or_assoc] at hc
        rcases hc with rfl | rfl | rfl | rfl | rfl | rfl | rfl | rfl | rfl | rfl
          <;> first
          | exact ⟨_, rfl⟩
          | simp [lcovCmd] at hic
      · simp only [runCommands, preCmds, mixinRegistrationCmds, if_neg hwin, if_neg hmix,
          List.mem_append, List.mem_cons, List.mem_singleton, List.not_mem_nil, or_false,
          false_or, or_assoc] at hc
        rcases hc with rfl | rfl | rfl | rfl | rfl | rfl | rfl | rfl
          <;> first
          | exact ⟨_, rfl⟩
          | simp [lcovCmd] at hic
  · unfold mkPfx
    rw [if_neg hsrbi]
    have hj := foldl_append_eq_joinSep
      (fun d => "source /opt/ros/" ++ d ++ "/setup.sh && ")
      (jsSplit inp.sourceRosBinaryInstallation) ""
    rw [String.empty_append] at hj
    exact hj

/-- C2 witness for the amended statement: with `eloquent` requested, the
coverage command is `undefined`-prefixed and the command prefix is exactly
the `eloquent` sourcing chunk. -/
theorem srbi_prefix_amended_witness :
    (lcovCmd envW inpC2).script = "undefined" ++ lcovLine inpC2
    ∧ mkPfx inpC2.sourceRosBinaryInstallation
        = joinSep "" ((jsSplit inpC2.sourceRosBinaryInstallation).map
            (fun d => "source /opt/ros/" ++ d ++ "/setup.sh && ")) :=
  ⟨(srbi_prefix_amended envW inpC2 (by decide) rfl).2.1,
   (srbi_prefix_amended envW inpC2 (by decide) rfl).2.2⟩

/-- C4: the pruning stage deletes exactly the set difference between the full
package listing and the packages-up-to listing — one entry per package, each
package identified by its declaring directory — and afterwards every
remaining package is a transitive build dependency of the targets; the
closure is inclusive of the targets themselves. -/
theorem dependency_pruning_spec (deps : String → List String)
    (targets : List String) (fuel : Nat) (ws : List SrcPackage)
    (hnd : (ws.map (fun p => p.path)).Nodup) :
    prunedPaths deps targets fuel ws
      = (ws.filter (fun p => !inUpToClosure deps targets fuel p.name)).map
          (fun p => p.path)
    ∧ dependencyPruning deps targets fuel ws
      = ws.filter (fun p => inUpToClosure deps targets fuel p.name)
    ∧ (∀ p ∈ dependencyPruning deps targets fuel ws,
        inUpToClosure deps targets fuel p.name = true)
    ∧ (∀ t ∈ targets, inUpToClosure deps targets fuel t = true) := by
  refine ⟨diffOldOnly_filter_map _ ws hnd,
    dependencyPruning_eq_filter deps targets fuel ws hnd, ?_, ?_⟩
  · intro p hp
    rw [dependencyPruning_eq_filter deps targets fuel ws hnd] at hp
    exact (List.mem_filter.mp hp).2
  · intro t ht
    unfold inUpToClosure
    apply List.any_eq_true.mpr
    refine ⟨t, ht, ?_⟩
    cases fuel with
    | zero => simp [reachableB]
    | succ n => simp [reachableB]

/-- C4 witness: with C depending on B depending on A and D unrelated, pruning
for target C deletes exactly `src/D` and keeps A, B and C. -/
theorem dependency_pruning_spec_witness :
    prunedPaths depsW ["C"] 3 wsPkgs = ["src/D"]
    ∧ dependencyPruning depsW ["C"] 3 wsPkgs
        = [⟨"A", "src/A"⟩, ⟨"B", "src/B"⟩, ⟨"C", "src/C"⟩] := by
  have h := dependency_pruning_spec depsW ["C"] 3 wsPkgs (by decide)
  constructor
  · rw [h.1]
    decide
  · rw [h.2.1]
    decide
